import Mathlib

/-!
Verification of the NEXO unified media-playback client.

This file gives a shallow embedding, in Lean 4, of the playback-session
logic of the repository: the playback-position store (src/utils/storage.ts),
the recent-magnets store, the skip-intro chapter engine, the resume-offer
flow, the subtitle-track merge, the subtitle-offset registry, the text-track
visibility rule, the download queue (src/components/UnifiedPlayer, the
unnamed part_002 source file), and the live-channel manifest load with its
proxy fallback (src/components/Player.tsx).

Numbers held in JavaScript floats (times, durations, offsets) are modelled
as rationals; JSON objects are modelled as association lists with unique
keys; fallible lookups return Option.
-/

/-! ## Playback-position store (src/utils/storage.ts) -/

/-- The parsed content of the nexo_playback_positions localStorage entry:
a JSON object mapping a media identity to the last recorded time.  Modelled
as an association list (keys unique by construction of the JSON object). -/
abbrev PlaybackPositions := List (String × ℚ)

/-- Embeds getPlaybackPosition: looks the identity up and returns
positions[mediaId] || null, so a stored 0 (falsy in JavaScript) is coerced
to the absent result. -/
def getPlaybackPosition (ps : PlaybackPositions) (mediaId : String) : Option ℚ :=
  match ps.lookup mediaId with
  | none => none
  | some v => if v = 0 then none else some v

/-- Embeds setPlaybackPosition: positions[mediaId] = time (replace the
value at an existing key, keep its position; otherwise append). -/
def setPlaybackPosition : PlaybackPositions → String → ℚ → PlaybackPositions
  | [], mediaId, t => [(mediaId, t)]
  | (k, v) :: rest, mediaId, t =>
    if k = mediaId then (k, t) :: rest else (k, v) :: setPlaybackPosition rest mediaId t

/-- Embeds clearPlaybackPosition: delete positions[mediaId]. -/
def clearPlaybackPosition (ps : PlaybackPositions) (mediaId : String) : PlaybackPositions :=
  ps.filter (fun p => p.1 != mediaId)

/-- Embeds the debounced persistence body of onTimeUpdate
(part_002, lines 653-659): with a media identity set, a positive time and a
known positive duration, a position past 95 percent of the duration clears
the stored record, any other position is written. -/
def onTimeUpdatePersist (ps : PlaybackPositions) (mediaId : Option String)
    (time duration : ℚ) : PlaybackPositions :=
  match mediaId with
  | none => ps
  | some id =>
    if 0 < time ∧ 0 < duration then
      if 95 / 100 < time / duration then clearPlaybackPosition ps id
      else setPlaybackPosition ps id time
    else ps

/-! ## Recent magnets store (src/utils/storage.ts, getRecentMagnets) -/

/-- The built-in example magnet link (EXAMPLE_MAGNET in storage.ts). -/
def EXAMPLE_MAGNET : String :=
  "magnet:?xt=urn:btih:7943AA61FAF369A2106790BFAE6002D6438B2B57&dn=Robin%20Hood%202025%20S01E03%20XviD-AFG&tr=udp%3A%2F%2Ftracker.opentrackr.org%3A1337&tr=udp%3A%2F%2Fopen.stealth.si%3A80%2Fannounce&tr=udp%3A%2F%2Ftracker.torrent.eu.org%3A451%2Fannounce&tr=udp%3A%2F%2Ftracker.bittor.pw%3A1337%2Fannounce&tr=udp%3A%2F%2Fpublic.popcorn-tracker.org%3A6969%2Fannounce&tr=udp%3A%2F%2Ftracker.dler.org%3A6969%2Fannounce&tr=udp%3A%2F%2Fexodus.desync.com%3A6969&tr=udp%3A%2F%2Fopen.demonii.com%3A1337%2Fannounce"

/-- The possible states of the nexo_recent_magnets localStorage entry, as
seen by getRecentMagnets after JSON.parse: no entry at all, an entry whose
parse throws, an entry parsing to an array of strings, or an entry parsing
to some non-array JSON value. -/
inductive RecentMagnetsStored where
  | absent
  | corrupt
  | arr (xs : List String)
  | nonArray
deriving DecidableEq

/-- Embeds getRecentMagnets: null storage returns the example magnet; a
parsed array is returned unchanged (even when empty); corrupt or non-array
data falls through to the empty list. -/
def getRecentMagnets : RecentMagnetsStored → List String
  | .absent => [EXAMPLE_MAGNET]
  | .corrupt => []
  | .arr xs => xs
  | .nonArray => []

/-! ### Lemmas about the position store -/

theorem lookup_clearPlaybackPosition (ps : PlaybackPositions) (mediaId : String) :
    (clearPlaybackPosition ps mediaId).lookup mediaId = none := by
  induction ps with
  | nil => rfl
  | cons hd tl ih =>
    obtain ⟨k, v⟩ := hd
    by_cases h : k = mediaId
    · have hb : (k != mediaId) = false := by simp [h]
      simp only [clearPlaybackPosition, List.filter_cons, hb, Bool.false_eq_true, if_false]
      exact ih
    · have hb : (k != mediaId) = true := by simp [h]
      have hb2 : (mediaId == k) = false := by simp [Ne.symm h]
      simp only [clearPlaybackPosition, List.filter_cons, hb, if_true, List.lookup, hb2]
      exact ih

theorem lookup_setPlaybackPosition (ps : PlaybackPositions) (mediaId : String) (t : ℚ) :
    (setPlaybackPosition ps mediaId t).lookup mediaId = some t := by
  induction ps with
  | nil => simp [setPlaybackPosition, List.lookup]
  | cons hd tl ih =>
    obtain ⟨k, v⟩ := hd
    by_cases h : k = mediaId
    · subst h
      simp [setPlaybackPosition, List.lookup]
    · have hb2 : (mediaId == k) = false := by simp [Ne.symm h]
      simp only [setPlaybackPosition, if_neg h, List.lookup, hb2]
      exact ih

/-- C5: a position past 95 percent of a known duration clears the stored
record (so recalling it afterwards returns absent), and recalling an
identity with no stored record returns absent. -/
theorem position_not_recorded_past_95_percent :
    (∀ (ps : PlaybackPositions) (id : String) (t d : ℚ),
      0 < d → 95 / 100 < t / d →
      getPlaybackPosition (onTimeUpdatePersist ps (some id) t d) id = none)
    ∧ (∀ (ps : PlaybackPositions) (id : String),
      ps.lookup id = none → getPlaybackPosition ps id = none) := by
  constructor
  · intro ps id t d hd hr
    have ht : 0 < t := by
      have h0 : (0 : ℚ) < t / d := lt_trans (by norm_num) hr
      by_contra hle
      push_neg at hle
      have : t / d ≤ 0 := div_nonpos_of_nonpos_of_nonneg hle (le_of_lt hd)
      exact absurd h0 (not_lt_of_le this)
    simp only [onTimeUpdatePersist, if_pos (And.intro ht hd), if_pos hr]
    simp [getPlaybackPosition, lookup_clearPlaybackPosition]
  · intro ps id h
    simp [getPlaybackPosition, h]

/-- Witness for position_not_recorded_past_95_percent at a concrete store. -/
theorem position_not_recorded_past_95_percent_witness :
    getPlaybackPosition (onTimeUpdatePersist [("m", 10)] (some "m") 97 100) "m" = none
    ∧ getPlaybackPosition [] "x" = none :=
  ⟨position_not_recorded_past_95_percent.1 [("m", 10)] "m" 97 100 (by norm_num) (by norm_num),
   position_not_recorded_past_95_percent.2 [] "x" rfl⟩

/-- C10: a recorded position of 0 reads back as absent, because
getPlaybackPosition coerces the falsy stored 0 to null. -/
theorem position_zero_reads_absent :
    ∀ (ps : PlaybackPositions) (id : String),
      getPlaybackPosition (setPlaybackPosition ps id 0) id = none := by
  intro ps id
  simp [getPlaybackPosition, lookup_setPlaybackPosition]

/-- C9: reading recent magnets distinguishes three cases: no stored entry
gives the one-element example list, a stored array is returned unchanged
(an empty stored array gives the empty list, not the example), corrupt or
non-array data gives the empty list. -/
theorem recent_magnets_three_cases :
    getRecentMagnets .absent = [EXAMPLE_MAGNET]
    ∧ (∀ xs, getRecentMagnets (.arr xs) = xs)
    ∧ getRecentMagnets (.arr []) = []
    ∧ getRecentMagnets .corrupt = []
    ∧ getRecentMagnets .nonArray = [] :=
  ⟨rfl, fun _ => rfl, rfl, rfl, rfl⟩

/-! ## Skip-intro chapter engine (part_002, onTimeUpdate lines 641-649 and
handleSkipIntro lines 944-952) -/

/-- Structural test that one character list starts with another; helper for
the JavaScript String.prototype.includes used by the chapter heuristic. -/
def startsWithChars : List Char → List Char → Bool
  | _, [] => true
  | [], _ :: _ => false
  | c :: cs, p :: ps => c == p && startsWithChars cs ps

/-- Structural substring search over character lists. -/
def charsContains : List Char → List Char → Bool
  | [], pat => pat.isEmpty
  | c :: cs, pat => startsWithChars (c :: cs) pat || charsContains cs pat

/-- Embeds JavaScript String.prototype.includes. -/
def stringIncludes (s pat : String) : Bool := charsContains s.data pat.data

/-- Embeds String.prototype.toLowerCase (ASCII, all the chapter names use). -/
def lowerString (s : String) : String := String.mk (s.data.map Char.toLower)

/-- A chapter as produced by the metadata collaborator (types.ts). -/
structure Chapter where
  timestamp : ℚ
  name : String
deriving DecidableEq

/-- The intro heuristic: c.name.toLowerCase().includes of the word intro. -/
def hasIntroName (c : Chapter) : Bool := stringIncludes (lowerString c.name) "intro"

/-- Embeds the skip-intro window test of onTimeUpdate: the first chapter
matching the intro heuristic and the first chapter with a strictly larger
timestamp, with the current time strictly between the two timestamps. -/
def isInIntroWindow (chapters : List Chapter) (time : ℚ) : Bool :=
  match chapters.find? hasIntroName with
  | none => false
  | some intro =>
    match chapters.find? (fun c => decide (intro.timestamp < c.timestamp)) with
    | none => false
    | some introEnd => decide (intro.timestamp < time) && decide (time < introEnd.timestamp)

/-- Embeds handleSkipIntro: the seek target of the skip action, absent when
no chapter follows the intro chapter. -/
def skipIntroTarget (chapters : List Chapter) : Option ℚ :=
  match chapters.find? hasIntroName with
  | none => none
  | some intro =>
    (chapters.find? (fun c => decide (intro.timestamp < c.timestamp))).map
      (fun c => c.timestamp)

/-- Modelled from the spec: window membership per the claim's words, a
half-open interval closed at the intro chapter's timestamp and open at the
next chapter's timestamp.  Stated only to compare with isInIntroWindow. -/
def specIntroWindowMem (chapters : List Chapter) (time : ℚ) : Bool :=
  match chapters.find? hasIntroName with
  | none => false
  | some intro =>
    match chapters.find? (fun c => decide (intro.timestamp < c.timestamp)) with
    | none => false
    | some introEnd => decide (intro.timestamp ≤ time) && decide (time < introEnd.timestamp)

/-- C2 counterexample: at the intro chapter's own timestamp the claim's
half-open window contains the playback time but the code reports the time
as outside the window (the comparison is strict on both ends). -/
theorem introWindow_left_endpoint_counterexample :
    specIntroWindowMem [⟨0, "Intro"⟩, ⟨90, "Episode"⟩] 0 = true
    ∧ isInIntroWindow [⟨0, "Intro"⟩, ⟨90, "Episode"⟩] 0 = false := by
  decide

/-- C2 amended: playback is inside the intro window iff the chapter list
has a first intro-named chapter, a first chapter strictly after it by
timestamp, and the time lies strictly between the two timestamps (an open
interval, not half-open); with no following chapter the window is empty and
the skip action has no target. -/
theorem introWindow_is_open_interval :
    (∀ (chapters : List Chapter) (t : ℚ),
      isInIntroWindow chapters t = true ↔
        ∃ intro introEnd,
          chapters.find? hasIntroName = some intro ∧
          chapters.find? (fun c => decide (intro.timestamp < c.timestamp)) = some introEnd ∧
          intro.timestamp < t ∧ t < introEnd.timestamp)
    ∧ (∀ (chapters : List Chapter) (intro : Chapter),
      chapters.find? hasIntroName = some intro →
      chapters.find? (fun c => decide (intro.timestamp < c.timestamp)) = none →
      (∀ t, isInIntroWindow chapters t = false) ∧ skipIntroTarget chapters = none) := by
  constructor
  · intro chapters t
    constructor
    · intro h
      unfold isInIntroWindow at h
      split at h
      · exact absurd h (by simp)
      next c1 h1 =>
        split at h
        · exact absurd h (by simp)
        next c2 h2 =>
          simp only [Bool.and_eq_true, decide_eq_true_eq] at h
          exact ⟨c1, c2, h1, h2, h.1, h.2⟩
    · rintro ⟨c1, c2, h1, h2, h3, h4⟩
      unfold isInIntroWindow
      rw [h1]
      dsimp only
      rw [h2]
      simp [h3, h4]
  · intro chapters c1 h1 h2
    refine ⟨fun t => ?_, ?_⟩
    · unfold isInIntroWindow
      rw [h1]
      dsimp only
      rw [h2]
    · unfold skipIntroTarget
      rw [h1]
      dsimp only
      rw [h2]
      rfl

/-- The spec's worked example list of chapters. -/
def demoChapters : List Chapter := [⟨0, "Intro"⟩, ⟨90, "Episode"⟩, ⟨1200, "Credits"⟩]

/-- Witness for introWindow_is_open_interval at the spec's example. -/
theorem introWindow_is_open_interval_witness :
    isInIntroWindow demoChapters 45 = true :=
  (introWindow_is_open_interval.1 demoChapters 45).mpr
    ⟨⟨0, "Intro"⟩, ⟨90, "Episode"⟩, by decide, by decide, by decide, by decide⟩

/-! ## Resume flow (part_002, the saved-position effect lines 498-506 and
handleResumePlayback lines 508-516) -/

/-- The slice of player state the resume flow touches: the media element's
current time, the pending resume offer, and whether play() was issued. -/
structure PlayerResumeState where
  currentTime : ℚ
  resumeTime : Option ℚ
  playing : Bool
deriving DecidableEq

/-- Embeds the saved-position effect: recall the stored position for the
media identity; a saved time past 5 seconds becomes a resume offer,
otherwise playback starts immediately. -/
def checkSavedPosition (ps : PlaybackPositions) (mediaId : String)
    (st : PlayerResumeState) : PlayerResumeState :=
  match getPlaybackPosition ps mediaId with
  | some savedTime =>
    if 5 < savedTime then { st with resumeTime := some savedTime }
    else { st with playing := true }
  | none => { st with playing := true }

/-- Embeds handleResumePlayback: with resume chosen and a truthy offer the
current time is set to the offered time; in every case the offer is
discarded and play() is issued.  The restart branch performs no seek. -/
def handleResumePlayback (resume : Bool) (st : PlayerResumeState) : PlayerResumeState :=
  let st1 :=
    match st.resumeTime with
    | some rt => if resume && !(rt == 0) then { st with currentTime := rt } else st
    | none => st
  { st1 with resumeTime := none, playing := true }

/-- C4 counterexample: choosing restart does not seek to 0; from a state
whose current time is 7 with a pending offer of 42, restart leaves the
current time at 7. -/
theorem resume_restart_does_not_seek_counterexample :
    (handleResumePlayback false ⟨7, some 42, false⟩).currentTime = 7
    ∧ ¬ (handleResumePlayback false ⟨7, some 42, false⟩).currentTime = 0 := by
  decide

/-- C4 amended: a saved time past 5 seconds becomes a resume offer;
choosing resume seeks to the offered time and discards the offer; choosing
restart performs no seek (leaving the current time unchanged, hence 0 in
the fresh-load flow) and discards the offer; once the offer is discarded a
further decision performs no seek, so the offer is consumed by exactly one
decision. -/
theorem resume_flow_behavior :
    (∀ (ps : PlaybackPositions) (id : String) (st : PlayerResumeState) (t : ℚ),
      getPlaybackPosition ps id = some t → 5 < t →
      (checkSavedPosition ps id st).resumeTime = some t)
    ∧ (∀ (st : PlayerResumeState) (rt : ℚ), st.resumeTime = some rt → 0 < rt →
      (handleResumePlayback true st).currentTime = rt
      ∧ (handleResumePlayback true st).resumeTime = none)
    ∧ (∀ st : PlayerResumeState,
      (handleResumePlayback false st).currentTime = st.currentTime
      ∧ (handleResumePlayback false st).resumeTime = none)
    ∧ (∀ (st : PlayerResumeState) (b : Bool), st.resumeTime = none →
      (handleResumePlayback b st).currentTime = st.currentTime) := by
  refine ⟨?_, ?_, ?_, ?_⟩
  · intro ps id st t h ht
    simp [checkSavedPosition, h, ht]
  · intro st rt h hrt
    have hne : (rt == 0) = false := by
      simp only [beq_eq_false_iff_ne, ne_eq]
      exact fun h0 => absurd (h0 ▸ hrt) (lt_irrefl 0)
    constructor <;> simp [handleResumePlayback, h, hne]
  · intro st
    cases h : st.resumeTime <;> simp [handleResumePlayback, h]
  · intro st b h
    simp [handleResumePlayback, h]

/-- Witness for resume_flow_behavior: a stored position of 42 for identity
x is offered, resume seeks to 42, restart from the fresh-load state keeps
time 0, and a decision after the offer is gone performs no seek. -/
theorem resume_flow_behavior_witness :
    (checkSavedPosition [("x", 42)] "x" ⟨0, none, false⟩).resumeTime = some 42
    ∧ ((handleResumePlayback true ⟨0, some 42, false⟩).currentTime = 42
      ∧ (handleResumePlayback true ⟨0, some 42, false⟩).resumeTime = none)
    ∧ ((handleResumePlayback false ⟨0, some 42, false⟩).currentTime = (0 : ℚ)
      ∧ (handleResumePlayback false ⟨0, some 42, false⟩).resumeTime = none)
    ∧ (handleResumePlayback true ⟨0, none, true⟩).currentTime = (0 : ℚ) :=
  ⟨resume_flow_behavior.1 [("x", 42)] "x" ⟨0, none, false⟩ 42 (by decide) (by decide),
   resume_flow_behavior.2.1 ⟨0, some 42, false⟩ 42 rfl (by decide),
   resume_flow_behavior.2.2.1 ⟨0, some 42, false⟩,
   resume_flow_behavior.2.2.2 ⟨0, none, true⟩ true rfl⟩

/-! ## Subtitle track merge (part_002, onLoadedMetadata lines 667-690) -/

/-- A subtitle track entry (types.ts): blob or embedded pseudo src, a label
used as the merge key, and a language code. -/
structure SubtitleTrack where
  src : String
  label : String
  srclang : String
deriving DecidableEq

/-- JavaScript Map.prototype.set on an association list: replace the value
at an existing key, keeping the key's insertion position; otherwise append
the new pair. -/
def mapSet : List (String × SubtitleTrack) → String → SubtitleTrack → List (String × SubtitleTrack)
  | [], k, v => [(k, v)]
  | (k0, v0) :: rest, k, v =>
    if k0 = k then (k0, v) :: rest else (k0, v0) :: mapSet rest k v

/-- The Map built by new Map(combined.map(item => [item.label, item])):
later pairs with the same label overwrite earlier ones. -/
def buildLabelMap (ts : List SubtitleTrack) : List (String × SubtitleTrack) :=
  ts.foldl (fun m t => mapSet m t.label t) []

/-- Embeds the availableSubtitleTracks merge in onLoadedMetadata:
Array.from(new Map(...).values()) over external tracks followed by the
embedded tracks discovered on the media element. -/
def mergeAvailableTracks (external embedded : List SubtitleTrack) : List SubtitleTrack :=
  (buildLabelMap (external ++ embedded)).map Prod.snd

theorem lookup_mapSet_self (m : List (String × SubtitleTrack)) (k : String) (v : SubtitleTrack) :
    (mapSet m k v).lookup k = some v := by
  induction m with
  | nil => simp [mapSet, List.lookup]
  | cons hd tl ih =>
    obtain ⟨k0, v0⟩ := hd
    by_cases h : k0 = k
    · subst h
      simp [mapSet, List.lookup]
    · have hb : (k == k0) = false := by simp [Ne.symm h]
      simp only [mapSet, if_neg h, List.lookup, hb]
      exact ih

theorem lookup_mapSet_ne (m : List (String × SubtitleTrack)) (k : String) (v : SubtitleTrack)
    (k' : String) (h : k' ≠ k) : (mapSet m k v).lookup k' = m.lookup k' := by
  induction m with
  | nil =>
    have hb : (k' == k) = false := by simp [h]
    simp [mapSet, List.lookup, hb]
  | cons hd tl ih =>
    obtain ⟨k0, v0⟩ := hd
    by_cases h0 : k0 = k
    · subst h0
      have hb : (k' == k0) = false := by simp [h]
      simp [mapSet, List.lookup, hb]
    · by_cases h1 : k' = k0
      · subst h1
        simp [mapSet, if_neg h0, List.lookup]
      · have hb : (k' == k0) = false := by simp [h1]
        simp only [mapSet, if_neg h0, List.lookup, hb]
        exact ih

theorem lookup_foldl_mapSet (ts : List SubtitleTrack) :
    ∀ (m : List (String × SubtitleTrack)) (l : String),
      (ts.foldl (fun acc t => mapSet acc t.label t) m).lookup l =
        (ts.reverse.find? (fun u => u.label == l)).or (m.lookup l) := by
  induction ts with
  | nil => intro m l; simp
  | cons t ts ih =>
    intro m l
    rw [List.foldl_cons, ih, List.reverse_cons, List.find?_append]
    cases hf : ts.reverse.find? (fun u => u.label == l) with
    | some u => simp [Option.or]
    | none =>
      simp only [Option.or]
      by_cases h : t.label = l
      · have hb : (t.label == l) = true := by simp [h]
        have hp : ([t].find? (fun u => u.label == l)) = some t := by
          simp [List.find?, hb]
        rw [hp, ← h, lookup_mapSet_self]
      · have hb : (t.label == l) = false := by simp [h]
        have hp : ([t].find? (fun u => u.label == l)) = none := by
          simp [List.find?, hb]
        rw [hp, lookup_mapSet_ne _ _ _ _ (fun he => h he.symm)]

theorem mapSet_cons_pos (k0 k : String) (v0 v : SubtitleTrack)
    (tl : List (String × SubtitleTrack)) (h : k0 = k) :
    mapSet ((k0, v0) :: tl) k v = (k0, v) :: tl := by
  simp [mapSet, h]

theorem mapSet_cons_neg (k0 k : String) (v0 v : SubtitleTrack)
    (tl : List (String × SubtitleTrack)) (h : ¬ k0 = k) :
    mapSet ((k0, v0) :: tl) k v = (k0, v0) :: mapSet tl k v := by
  simp [mapSet, h]

theorem mem_mapSet (m : List (String × SubtitleTrack)) (k : String) (v : SubtitleTrack) :
    ∀ p ∈ mapSet m k v, p = (k, v) ∨ p ∈ m := by
  induction m with
  | nil =>
    intro p hp
    simp only [mapSet, List.mem_singleton] at hp
    exact Or.inl hp
  | cons hd tl ih =>
    obtain ⟨k0, v0⟩ := hd
    intro p hp
    by_cases h : k0 = k
    · rw [mapSet_cons_pos k0 k v0 v tl h] at hp
      rcases List.mem_cons.mp hp with h1 | h1
      · left; rw [h1, h]
      · right; exact List.mem_cons_of_mem _ h1
    · rw [mapSet_cons_neg k0 k v0 v tl h] at hp
      rcases List.mem_cons.mp hp with h1 | h1
      · right; exact h1 ▸ List.mem_cons_self _ _
      · rcases ih p h1 with h2 | h2
        · left; exact h2
        · right; exact List.mem_cons_of_mem _ h2

theorem mem_keys_mapSet (m : List (String × SubtitleTrack)) (k : String) (v : SubtitleTrack) :
    ∀ a ∈ (mapSet m k v).map Prod.fst, a ∈ m.map Prod.fst ∨ a = k := by
  intro a ha
  obtain ⟨p, hp, hfst⟩ := List.mem_map.mp ha
  rcases mem_mapSet m k v p hp with h | h
  · right; rw [← hfst, h]
  · left; exact hfst ▸ List.mem_map_of_mem Prod.fst h

theorem nodup_keys_mapSet (m : List (String × SubtitleTrack)) (k : String) (v : SubtitleTrack)
    (h : (m.map Prod.fst).Nodup) : ((mapSet m k v).map Prod.fst).Nodup := by
  induction m with
  | nil => simp [mapSet]
  | cons hd tl ih =>
    obtain ⟨k0, v0⟩ := hd
    simp only [List.map_cons, List.nodup_cons] at h
    by_cases h0 : k0 = k
    · subst h0
      simpa [mapSet] using h
    · simp only [mapSet, if_neg h0, List.map_cons, List.nodup_cons]
      refine ⟨fun hmem => ?_, ih h.2⟩
      rcases mem_keys_mapSet tl k v k0 hmem with h1 | h1
      · exact h.1 h1
      · exact h0 h1

theorem labels_foldl_mapSet (ts : List SubtitleTrack) :
    ∀ (m : List (String × SubtitleTrack)),
      (∀ p ∈ m, p.2.label = p.1) →
      ∀ p ∈ ts.foldl (fun acc t => mapSet acc t.label t) m, p.2.label = p.1 := by
  induction ts with
  | nil => intro m hm; simpa using hm
  | cons t ts ih =>
    intro m hm p hp
    rw [List.foldl_cons] at hp
    refine ih (mapSet m t.label t) ?_ p hp
    intro q hq
    rcases mem_mapSet m t.label t q hq with h | h
    · rw [h]
    · exact hm q h

theorem nodup_keys_foldl_mapSet (ts : List SubtitleTrack) :
    ∀ (m : List (String × SubtitleTrack)),
      (m.map Prod.fst).Nodup →
      ((ts.foldl (fun acc t => mapSet acc t.label t) m).map Prod.fst).Nodup := by
  induction ts with
  | nil => intro m hm; simpa using hm
  | cons t ts ih =>
    intro m hm
    rw [List.foldl_cons]
    exact ih _ (nodup_keys_mapSet m t.label t hm)

theorem lookup_eq_of_mem_nodup :
    ∀ (m : List (String × SubtitleTrack)) (k : String) (u : SubtitleTrack),
      (m.map Prod.fst).Nodup → (k, u) ∈ m → m.lookup k = some u := by
  intro m
  induction m with
  | nil => intro k u _ h; simp at h
  | cons hd tl ih =>
    obtain ⟨k0, v0⟩ := hd
    intro k u hnd hmem
    simp only [List.map_cons, List.nodup_cons] at hnd
    rcases List.mem_cons.mp hmem with h | h
    · injection h with hk hu
      subst hk
      subst hu
      simp [List.lookup]
    · have hk : ¬ k = k0 := by
        intro he
        refine hnd.1 ?_
        have : k ∈ tl.map Prod.fst := List.mem_map_of_mem Prod.fst h
        exact he ▸ this
      have hb : (k == k0) = false := by simp [hk]
      simp only [List.lookup, hb]
      exact ih k u hnd.2 h

/-- C1 amended: in the merged available-track list, on a label collision
the embedded track (the later occurrence in external ++ embedded) wins: any
merged track whose label also occurs among the embedded tracks is itself an
embedded track, not an external one. -/
theorem merge_embedded_wins :
    ∀ (external embedded : List SubtitleTrack) (t : SubtitleTrack),
      t ∈ mergeAvailableTracks external embedded →
      (∃ e ∈ embedded, e.label = t.label) →
      t ∈ embedded := by
  intro ext emb t hmem hcol
  obtain ⟨p, hp, hsnd⟩ := List.mem_map.mp hmem
  have hlab : p.2.label = p.1 :=
    labels_foldl_mapSet (ext ++ emb) [] (by simp) p hp
  have hnd : ((buildLabelMap (ext ++ emb)).map Prod.fst).Nodup :=
    nodup_keys_foldl_mapSet (ext ++ emb) [] (by simp)
  have hpair : (p.1, p.2) ∈ buildLabelMap (ext ++ emb) := by simpa using hp
  have hlk : (buildLabelMap (ext ++ emb)).lookup p.1 = some p.2 :=
    lookup_eq_of_mem_nodup _ _ _ hnd hpair
  unfold buildLabelMap at hlk
  rw [lookup_foldl_mapSet] at hlk
  simp only [List.lookup, Option.or_none] at hlk
  rw [List.reverse_append, List.find?_append] at hlk
  obtain ⟨e, he, hlabel⟩ := hcol
  have hp1 : p.1 = t.label := by rw [← hlab, hsnd]
  have hex : ∃ x ∈ emb.reverse, (x.label == p.1) = true :=
    ⟨e, List.mem_reverse.mpr he, by simp [hlabel, hp1]⟩
  have hsome : (emb.reverse.find? (fun u => u.label == p.1)).isSome :=
    List.find?_isSome.mpr hex
  cases hf : emb.reverse.find? (fun u => u.label == p.1) with
  | none => rw [hf] at hsome; simp at hsome
  | some u =>
    rw [hf] at hlk
    simp only [Option.or] at hlk
    have hu : u = p.2 := Option.some.inj hlk
    have humem : u ∈ emb.reverse := List.mem_of_find?_eq_some hf
    rw [← hsnd, ← hu]
    exact List.mem_reverse.mp humem

/-- An externally loaded subtitle track labelled English. -/
def extEnglish : SubtitleTrack := ⟨"blob:external-english", "English", "en"⟩

/-- An embedded subtitle track sharing the label English. -/
def embEnglish : SubtitleTrack := ⟨"embedded-0-English-en", "English", "en"⟩

/-- C1 counterexample: merging one external and one embedded track that
share the label English keeps the embedded track and drops the external
one, so the external track does not take precedence. -/
theorem merge_external_precedence_counterexample :
    mergeAvailableTracks [extEnglish] [embEnglish] = [embEnglish]
    ∧ extEnglish ∉ mergeAvailableTracks [extEnglish] [embEnglish] := by
  decide

/-- Witness for merge_embedded_wins at the concrete colliding pair. -/
theorem merge_embedded_wins_witness :
    embEnglish ∈ mergeAvailableTracks [extEnglish] [embEnglish]
    ∧ embEnglish ∈ [embEnglish] :=
  ⟨by decide,
   merge_embedded_wins [extEnglish] [embEnglish] embEnglish (by decide)
     ⟨embEnglish, by decide, rfl⟩⟩

/-! ## Text-track visibility (part_002, the visibility effect lines 856-864) -/

/-- The mode of a platform TextTrack. -/
inductive TrackMode where
  | disabled
  | hiddenMode
  | showing
deriving DecidableEq

/-- A text track on the media element: label, language and current mode. -/
structure MediaTextTrack where
  label : String
  language : String
  mode : TrackMode
deriving DecidableEq

/-- The fields of activeSubtitleTrack the visibility effect reads. -/
structure ActiveSelection where
  src : String
  label : String
deriving DecidableEq

/-- The synthetic src given to the i-th embedded track in onLoadedMetadata. -/
def embeddedKey (i : Nat) (t : MediaTextTrack) : String :=
  "embedded-" ++ toString i ++ "-" ++ t.label ++ "-" ++ t.language

/-- The isTrackActive condition of the visibility effect: some active
selection whose label equals the track's label or whose src equals the
track's embedded key. -/
def isTrackActive (active : Option ActiveSelection) (i : Nat) (t : MediaTextTrack) : Bool :=
  match active with
  | none => false
  | some a => t.label == a.label || embeddedKey i t == a.src

/-- The indexed for-loop of the visibility effect, from position i: each
track's mode is set to showing when isTrackActive holds and hidden
otherwise. -/
def applyVisibilityFrom (active : Option ActiveSelection) : Nat → List MediaTextTrack → List MediaTextTrack
  | _, [] => []
  | i, t :: ts =>
    { t with mode := if isTrackActive active i t then .showing else .hiddenMode }
      :: applyVisibilityFrom active (i + 1) ts

/-- Embeds the whole visibility effect (loop from index 0). -/
def applyVisibility (active : Option ActiveSelection) (tracks : List MediaTextTrack) :
    List MediaTextTrack :=
  applyVisibilityFrom active 0 tracks

/-- How many tracks from position i onward satisfy isTrackActive. -/
def activeMatchCountFrom (active : Option ActiveSelection) : Nat → List MediaTextTrack → Nat
  | _, [] => 0
  | i, t :: ts =>
    (if isTrackActive active i t then 1 else 0) + activeMatchCountFrom active (i + 1) ts

/-- How many tracks are in showing mode. -/
def showingCount (ts : List MediaTextTrack) : Nat :=
  ts.countP (fun t => t.mode == .showing)

/-- C7 counterexample: with two text tracks sharing the label English and
an active selection labelled English, the visibility effect sets both
tracks to showing, so two tracks are simultaneously visible. -/
theorem visibility_two_showing_counterexample :
    showingCount (applyVisibility (some ⟨"blob:external-english", "English"⟩)
      [⟨"English", "en", .hiddenMode⟩, ⟨"English", "es", .hiddenMode⟩]) = 2 := by
  decide

/-- C7 amended: the effect sets exactly the tracks matching the active
selection (by label, or by embedded key against the selection's src) to
showing and every other track to hidden; with no selection every track is
hidden; and whenever at most one track matches the selection (in
particular when labels are pairwise distinct), at most one track is
visible. -/
theorem visibility_matches_showing :
    (∀ (active : Option ActiveSelection) (i : Nat) (ts : List MediaTextTrack),
      showingCount (applyVisibilityFrom active i ts) = activeMatchCountFrom active i ts)
    ∧ (∀ ts : List MediaTextTrack, ∀ t ∈ applyVisibility none ts, t.mode = TrackMode.hiddenMode)
    ∧ (∀ (active : Option ActiveSelection) (ts : List MediaTextTrack),
      activeMatchCountFrom active 0 ts ≤ 1 → showingCount (applyVisibility active ts) ≤ 1) := by
  have hcount : ∀ (active : Option ActiveSelection) (ts : List MediaTextTrack) (i : Nat),
      showingCount (applyVisibilityFrom active i ts) = activeMatchCountFrom active i ts := by
    intro active ts
    induction ts with
    | nil => intro i; rfl
    | cons t ts ih =>
      intro i
      have hih := ih (i + 1)
      simp only [showingCount] at hih ⊢
      simp only [applyVisibilityFrom, activeMatchCountFrom, List.countP_cons, hih]
      by_cases h : isTrackActive active i t = true
      · simp [h, Nat.add_comm]
      · simp [h]
  refine ⟨fun active i ts => hcount active ts i, ?_, ?_⟩
  · have hall : ∀ (ts : List MediaTextTrack) (i : Nat),
        ∀ t ∈ applyVisibilityFrom none i ts, t.mode = TrackMode.hiddenMode := by
      intro ts
      induction ts with
      | nil => intro i t ht; simp [applyVisibilityFrom] at ht
      | cons u ts ih =>
        intro i t ht
        rcases List.mem_cons.mp ht with h | h
        · rw [h]; simp [isTrackActive]
        · exact ih (i + 1) t h
    exact fun ts t ht => hall ts 0 t ht
  · intro active ts h
    rw [applyVisibility, hcount active ts 0]
    exact h

/-- Witness for visibility_matches_showing: distinct labels, one match. -/
theorem visibility_matches_showing_witness :
    showingCount (applyVisibility (some ⟨"blob:external-english", "English"⟩)
      [⟨"English", "en", .hiddenMode⟩, ⟨"Spanish", "es", .hiddenMode⟩]) ≤ 1 :=
  visibility_matches_showing.2.2 (some ⟨"blob:external-english", "English"⟩)
    [⟨"English", "en", .hiddenMode⟩, ⟨"Spanish", "es", .hiddenMode⟩] (by decide)

/-! ## Subtitle offset registry (part_002, the applyOffset effect lines
728-753, with originalCueTimesRef as the per-cue side table) -/

/-- The remembered original timing of a cue. -/
structure CueTimes where
  startTime : ℚ
  endTime : ℚ
deriving DecidableEq

/-- A cue of the active track together with its entry in the
originalCueTimesRef side table (none when the cue has not been seen). -/
structure TrackCue where
  startTime : ℚ
  endTime : ℚ
  original : Option CueTimes
deriving DecidableEq

/-- The snapshot taken when the first cue has no side-table entry:
every cue's current timing is stored as its original. -/
def rememberOriginals (cues : List TrackCue) : List TrackCue :=
  cues.map fun c => { c with original := some ⟨c.startTime, c.endTime⟩ }

/-- The guard of the snapshot: originalCueTimesRef has no entry for
track.cues[0]. -/
def needSnapshot (cues : List TrackCue) : Bool :=
  match cues.head? with
  | none => false
  | some c => c.original == none

/-- The per-cue assignment: cue.startTime = original.startTime + offset and
likewise for endTime, for cues with a remembered original. -/
def applyCueOffset (offset : ℚ) (c : TrackCue) : TrackCue :=
  match c.original with
  | some original =>
    { c with startTime := original.startTime + offset, endTime := original.endTime + offset }
  | none => c

/-- Embeds the applyOffset closure: snapshot original timings when the
first cue is unseen, then rewrite every remembered cue's timing relative to
its original. -/
def applyOffset (offset : ℚ) (cues : List TrackCue) : List TrackCue :=
  let cues1 := if needSnapshot cues then rememberOriginals cues else cues
  cues1.map (applyCueOffset offset)

theorem applyCueOffset_original (o : ℚ) (c : TrackCue) :
    (applyCueOffset o c).original = c.original := by
  cases h : c.original <;> simp [applyCueOffset, h]

theorem applyCueOffset_idem (o : ℚ) (c : TrackCue) :
    applyCueOffset o (applyCueOffset o c) = applyCueOffset o c := by
  cases h : c.original with
  | none => simp [applyCueOffset, h]
  | some orig => simp [applyCueOffset, h]

theorem applyOffset_def (o : ℚ) (cues : List TrackCue) :
    applyOffset o cues
      = (if needSnapshot cues then rememberOriginals cues else cues).map (applyCueOffset o) :=
  rfl

theorem needSnapshot_map_applyCueOffset (o : ℚ) (l : List TrackCue) :
    needSnapshot (l.map (applyCueOffset o)) = needSnapshot l := by
  cases l with
  | nil => rfl
  | cons c rest =>
    simp [needSnapshot, List.map_cons, List.head?_cons, applyCueOffset_original]

theorem needSnapshot_rememberOriginals (cues : List TrackCue) :
    needSnapshot (rememberOriginals cues) = false := by
  cases cues with
  | nil => rfl
  | cons c rest => simp [needSnapshot, rememberOriginals]

theorem needSnapshot_applyOffset (o : ℚ) (cues : List TrackCue) :
    needSnapshot (applyOffset o cues) = false := by
  rw [applyOffset_def, needSnapshot_map_applyCueOffset]
  by_cases h : needSnapshot cues = true
  · rw [if_pos h, needSnapshot_rememberOriginals]
  · have hb : needSnapshot cues = false := by
      cases h2 : needSnapshot cues
      · rfl
      · exact absurd h2 h
    rw [hb]
    simpa using hb

/-- C6: applying the same offset twice yields the same cue timings as
applying it once; and for every cue whose original timing is remembered
(the side table populated, signalled by the first cue being remembered),
applying an offset yields original plus offset, so applying offset 0
restores the original timings exactly, whatever offsets were applied
before. -/
theorem applyOffset_idempotent_and_offset_from_original :
    (∀ (o : ℚ) (cues : List TrackCue),
      applyOffset o (applyOffset o cues) = applyOffset o cues)
    ∧ (∀ (o : ℚ) (cues : List TrackCue) (i : Nat) (c : TrackCue) (orig : CueTimes),
      needSnapshot cues = false → cues[i]? = some c → c.original = some orig →
      ((applyOffset o cues)[i]?.map fun c2 => (c2.startTime, c2.endTime))
        = some (orig.startTime + o, orig.endTime + o))
    ∧ (∀ (cues : List TrackCue) (i : Nat) (c : TrackCue) (orig : CueTimes),
      needSnapshot cues = false → cues[i]? = some c → c.original = some orig →
      ((applyOffset 0 cues)[i]?.map fun c2 => (c2.startTime, c2.endTime))
        = some (orig.startTime, orig.endTime)) := by
  have hmain : ∀ (o : ℚ) (cues : List TrackCue) (i : Nat) (c : TrackCue) (orig : CueTimes),
      needSnapshot cues = false → cues[i]? = some c → c.original = some orig →
      ((applyOffset o cues)[i]?.map fun c2 => (c2.startTime, c2.endTime))
        = some (orig.startTime + o, orig.endTime + o) := by
    intro o cues i c orig hns hi hc
    have : applyOffset o cues = cues.map (applyCueOffset o) := by
      simp [applyOffset, hns]
    rw [this, List.getElem?_map, hi]
    simp [applyCueOffset, hc]
  refine ⟨?_, hmain, ?_⟩
  · intro o cues
    have hfun : applyCueOffset o ∘ applyCueOffset o = applyCueOffset o :=
      funext (applyCueOffset_idem o)
    have h1 : applyOffset o (applyOffset o cues)
        = (applyOffset o cues).map (applyCueOffset o) := by
      rw [applyOffset_def o (applyOffset o cues), needSnapshot_applyOffset]
      simp
    by_cases h : needSnapshot cues = true
    · have h2 : applyOffset o cues = (rememberOriginals cues).map (applyCueOffset o) := by
        rw [applyOffset_def, if_pos h]
      rw [h1, h2, List.map_map, hfun]
    · have hb : needSnapshot cues = false := by
        cases h2 : needSnapshot cues
        · rfl
        · exact absurd h2 h
      have h2 : applyOffset o cues = cues.map (applyCueOffset o) := by
        rw [applyOffset_def, hb]
        simp
      rw [h1, h2, List.map_map, hfun]
  · intro cues i c orig hns hi hc
    have := hmain 0 cues i c orig hns hi hc
    simpa using this

/-- Witness for applyOffset_idempotent_and_offset_from_original on a
one-cue track displaced to 10-20 with remembered original 1-2. -/
theorem applyOffset_from_original_witness :
    ((applyOffset 5 [⟨10, 20, some ⟨1, 2⟩⟩])[0]?.map fun c2 => (c2.startTime, c2.endTime))
      = some ((1 : ℚ) + 5, (2 : ℚ) + 5)
    ∧ ((applyOffset 0 [⟨10, 20, some ⟨1, 2⟩⟩])[0]?.map fun c2 => (c2.startTime, c2.endTime))
      = some ((1 : ℚ), (2 : ℚ)) :=
  ⟨applyOffset_idempotent_and_offset_from_original.2.1 5 [⟨10, 20, some ⟨1, 2⟩⟩] 0
      ⟨10, 20, some ⟨1, 2⟩⟩ ⟨1, 2⟩ (by decide) rfl rfl,
   applyOffset_idempotent_and_offset_from_original.2.2 [⟨10, 20, some ⟨1, 2⟩⟩] 0
      ⟨10, 20, some ⟨1, 2⟩⟩ ⟨1, 2⟩ (by decide) rfl rfl⟩

/-! ## Download queue (part_002: the queue effect lines 765-781 and
handleAddToDownloadQueue lines 783-787) -/

/-- The status field of a DownloadQueueItem (errored models 'error'). -/
inductive DownloadStatus where
  | queued
  | preparing
  | downloading
  | done
  | errored
deriving DecidableEq

/-- A download-queue item; the torrent file handle is identified by its
file name, the identity the code de-duplicates and updates by. -/
structure QueueItem where
  fileName : String
  status : DownloadStatus
deriving DecidableEq

/-- The downloadQueue state value. -/
abbrev DownloadQueue := List QueueItem

/-- Whether a status is preparing or downloading (the in-flight statuses
tested by the queue effect's guard). -/
def statusInFlight (s : DownloadStatus) : Bool :=
  s == .preparing || s == .downloading

/-- Whether an item is in flight. -/
def isInFlight (i : QueueItem) : Bool := statusInFlight i.status

/-- The guard downloadQueue.some(item in preparing or downloading). -/
def hasInFlight (q : DownloadQueue) : Bool := q.any isInFlight

/-- The number of in-flight items. -/
def inFlightCount (q : DownloadQueue) : Nat := q.countP isInFlight

/-- Embeds handleAddToDownloadQueue: appending a queued item unless some
item with the same file name is already present. -/
def handleAddToDownloadQueue (q : DownloadQueue) (n : String) : DownloadQueue :=
  if q.any (fun i => i.fileName == n) then q else q ++ [⟨n, .queued⟩]

/-- Embeds the setDownloadQueue(q.map(i => i.file.name === n ? withStatus :
i)) updates of the queue effect. -/
def setStatus (q : DownloadQueue) (n : String) (s : DownloadStatus) : DownloadQueue :=
  q.map (fun i => if i.fileName == n then { i with status := s } else i)

/-- The queue effect's pick: downloadQueue.find(item.status === queued). -/
def nextQueued (q : DownloadQueue) : Option QueueItem :=
  q.find? (fun i => i.status == .queued)

/-- The file names present in the queue, in order. -/
def queueNames (q : DownloadQueue) : List String := q.map (fun i => i.fileName)

/-- One atomic transition of the downloadQueue state: an enqueue request,
the effect starting the next queued item (only when nothing is in flight),
or a getBlobURL callback step of the started item (failure, blob ready,
then save finished). -/
inductive QueueStep : DownloadQueue → DownloadQueue → Prop where
  | enqueue (q : DownloadQueue) (n : String) :
      QueueStep q (handleAddToDownloadQueue q n)
  | start (q : DownloadQueue) (item : QueueItem) :
      hasInFlight q = false → nextQueued q = some item →
      QueueStep q (setStatus q item.fileName .preparing)
  | blobFailed (q : DownloadQueue) (n : String) :
      (∃ i ∈ q, i.fileName = n ∧ i.status = .preparing) →
      QueueStep q (setStatus q n .errored)
  | blobReady (q : DownloadQueue) (n : String) :
      (∃ i ∈ q, i.fileName = n ∧ i.status = .preparing) →
      QueueStep q (setStatus q n .downloading)
  | saveDone (q : DownloadQueue) (n : String) :
      (∃ i ∈ q, i.fileName = n ∧ i.status = .downloading) →
      QueueStep q (setStatus q n .done)

/-- The invariant maintained by the queue: distinct file names, at most one
in-flight item. -/
def QueueInv (q : DownloadQueue) : Prop :=
  (queueNames q).Nodup ∧ inFlightCount q ≤ 1

theorem setStatus_eq_of_not_named (q : DownloadQueue) (n : String) (s : DownloadStatus)
    (h : ∀ j ∈ q, j.fileName ≠ n) : setStatus q n s = q := by
  induction q with
  | nil => rfl
  | cons hd tl ih =>
    have hb : (hd.fileName == n) = false := by
      simp [h hd (List.mem_cons_self hd tl)]
    have ih2 := ih (fun j hj => h j (List.mem_cons_of_mem hd hj))
    simp only [setStatus, List.map_cons] at ih2 ⊢
    simp only [hb, Bool.false_eq_true, if_false]
    rw [ih2]

theorem queueNames_setStatus (q : DownloadQueue) (n : String) (s : DownloadStatus) :
    queueNames (setStatus q n s) = queueNames q := by
  induction q with
  | nil => rfl
  | cons hd tl ih =>
    simp only [setStatus, queueNames, List.map_cons] at ih ⊢
    rw [ih]
    by_cases hb : (hd.fileName == n) = true
    · rw [if_pos hb]
    · rw [if_neg hb]

theorem inFlightCount_zero_of_not_hasInFlight (q : DownloadQueue)
    (h : hasInFlight q = false) : inFlightCount q = 0 := by
  rw [inFlightCount, List.countP_eq_zero]
  rw [hasInFlight, List.any_eq_false] at h
  exact h

theorem nextQueued_mem {q : DownloadQueue} {item : QueueItem}
    (h : nextQueued q = some item) : item ∈ q ∧ item.status = .queued := by
  refine ⟨List.mem_of_find?_eq_some h, ?_⟩
  have := List.find?_some h
  simpa using this

theorem handleAdd_of_mem (q : DownloadQueue) (n : String)
    (h : ∃ i ∈ q, i.fileName = n) : handleAddToDownloadQueue q n = q := by
  obtain ⟨i, hi, hn⟩ := h
  have ha : q.any (fun i => i.fileName == n) = true :=
    List.any_eq_true.mpr ⟨i, hi, by simp [hn]⟩
  simp [handleAddToDownloadQueue, ha]

theorem inFlightCount_setStatus (q : DownloadQueue) (n : String) (s : DownloadStatus)
    (i : QueueItem) (hnd : (queueNames q).Nodup) (hi : i ∈ q) (hn : i.fileName = n) :
    inFlightCount (setStatus q n s) + (if statusInFlight i.status then 1 else 0)
      = inFlightCount q + (if statusInFlight s then 1 else 0) := by
  induction q with
  | nil => simp at hi
  | cons hd tl ih =>
    simp only [queueNames, List.map_cons, List.nodup_cons] at hnd
    rcases List.mem_cons.mp hi with rfl | hh
    · have hb : (i.fileName == n) = true := by simp [hn]
      have htl : setStatus tl n s = tl := by
        apply setStatus_eq_of_not_named
        intro j hj he
        apply hnd.1
        rw [hn, ← he]
        exact List.mem_map_of_mem _ hj
      have htl2 : List.map
          (fun j => if (j.fileName == n) = true then { j with status := s } else j) tl = tl := by
        simpa [setStatus] using htl
      simp only [setStatus, List.map_cons, hb, if_true, htl2]
      simp only [inFlightCount, List.countP_cons, isInFlight]
      omega
    · have hne : (hd.fileName == n) = false := by
        simp only [beq_eq_false_iff_ne, ne_eq]
        intro he
        apply hnd.1
        rw [he, ← hn]
        exact List.mem_map_of_mem _ hh
      simp only [setStatus, List.map_cons, hne, Bool.false_eq_true, if_false]
      simp only [inFlightCount, List.countP_cons]
      have hrec := ih hnd.2 hh
      simp only [inFlightCount, setStatus] at hrec
      omega

theorem queueStep_preserves_inv {q q2 : DownloadQueue}
    (hinv : QueueInv q) (hstep : QueueStep q q2) : QueueInv q2 := by
  obtain ⟨hnd, hcnt⟩ := hinv
  cases hstep with
  | enqueue n =>
    by_cases h : q.any (fun i => i.fileName == n) = true
    · simpa [handleAddToDownloadQueue, h] using And.intro hnd hcnt
    · have hfalse : q.any (fun i => i.fileName == n) = false := by
        cases h2 : q.any (fun i => i.fileName == n)
        · rfl
        · exact absurd h2 h
      have hadd : handleAddToDownloadQueue q n = q ++ [⟨n, .queued⟩] := by
        simp [handleAddToDownloadQueue, hfalse]
      have hnotin : n ∉ queueNames q := by
        intro hmem
        obtain ⟨j, hj, hjn⟩ := List.mem_map.mp hmem
        rw [List.any_eq_false] at hfalse
        exact hfalse j hj (by simp [hjn])
      constructor
      · rw [hadd]
        simp only [queueNames, List.map_append, List.map_cons, List.map_nil]
        refine List.Nodup.append hnd (List.nodup_singleton n) ?_
        intro a ha hb2
        rw [List.mem_singleton] at hb2
        exact hnotin (hb2 ▸ ha)
      · rw [hadd, inFlightCount, List.countP_append]
        have hzero : List.countP isInFlight [⟨n, DownloadStatus.queued⟩] = 0 := by
          simp [List.countP_cons, isInFlight, statusInFlight]
        rw [hzero]
        simpa [inFlightCount] using hcnt
  | start item h1 h2 =>
    obtain ⟨hmem, hq⟩ := nextQueued_mem h2
    have hz : inFlightCount q = 0 := inFlightCount_zero_of_not_hasInFlight q h1
    refine ⟨by rw [queueNames_setStatus]; exact hnd, ?_⟩
    have hacct := inFlightCount_setStatus q item.fileName .preparing item hnd hmem rfl
    rw [hq] at hacct
    have hsq : statusInFlight DownloadStatus.queued = false := rfl
    have hsp : statusInFlight DownloadStatus.preparing = true := rfl
    rw [hsq, hsp] at hacct
    simp only [Bool.false_eq_true, if_false, if_true] at hacct
    omega
  | blobFailed n hex =>
    obtain ⟨i, hi, hin, hs⟩ := hex
    refine ⟨by rw [queueNames_setStatus]; exact hnd, ?_⟩
    have hacct := inFlightCount_setStatus q n .errored i hnd hi hin
    rw [hs] at hacct
    have hsp : statusInFlight DownloadStatus.preparing = true := rfl
    have hse : statusInFlight DownloadStatus.errored = false := rfl
    rw [hsp, hse] at hacct
    simp only [Bool.false_eq_true, if_false, if_true] at hacct
    omega
  | blobReady n hex =>
    obtain ⟨i, hi, hin, hs⟩ := hex
    refine ⟨by rw [queueNames_setStatus]; exact hnd, ?_⟩
    have hacct := inFlightCount_setStatus q n .downloading i hnd hi hin
    rw [hs] at hacct
    have hsp : statusInFlight DownloadStatus.preparing = true := rfl
    have hsd : statusInFlight DownloadStatus.downloading = true := rfl
    rw [hsp, hsd] at hacct
    simp only [if_true] at hacct
    omega
  | saveDone n hex =>
    obtain ⟨i, hi, hin, hs⟩ := hex
    refine ⟨by rw [queueNames_setStatus]; exact hnd, ?_⟩
    have hacct := inFlightCount_setStatus q n .done i hnd hi hin
    rw [hs] at hacct
    have hsd : statusInFlight DownloadStatus.downloading = true := rfl
    have hsn : statusInFlight DownloadStatus.done = false := rfl
    rw [hsd, hsn] at hacct
    simp only [Bool.false_eq_true, if_false, if_true] at hacct
    omega

/-- C3: along every sequence of enqueue and queue-processing steps from
the initial empty queue, at most one item is ever in preparing or
downloading, and enqueueing a file name already present in the queue (in
any status) leaves the queue unchanged. -/
theorem downloadQueue_single_flight :
    ∀ q : DownloadQueue, Relation.ReflTransGen QueueStep [] q →
      inFlightCount q ≤ 1
      ∧ (∀ n, (∃ i ∈ q, i.fileName = n) → handleAddToDownloadQueue q n = q) := by
  intro q hreach
  have hinv : QueueInv q := by
    induction hreach with
    | refl => exact ⟨by simp [queueNames], by simp [inFlightCount]⟩
    | tail hsteps hstep ih => exact queueStep_preserves_inv ih hstep
  exact ⟨hinv.2, fun n hn => handleAdd_of_mem q n hn⟩

/-- Witness for downloadQueue_single_flight at the queue reached by
enqueueing a and starting it. -/
theorem downloadQueue_single_flight_witness :
    inFlightCount [⟨"a", DownloadStatus.preparing⟩] ≤ 1
    ∧ (∀ n, (∃ i ∈ [(⟨"a", DownloadStatus.preparing⟩ : QueueItem)], i.fileName = n) →
      handleAddToDownloadQueue [⟨"a", DownloadStatus.preparing⟩] n
        = [⟨"a", DownloadStatus.preparing⟩]) := by
  apply downloadQueue_single_flight
  have h1 : QueueStep [] [⟨"a", DownloadStatus.queued⟩] := by
    have h := QueueStep.enqueue [] "a"
    simpa [handleAddToDownloadQueue] using h
  have h2 : QueueStep [⟨"a", DownloadStatus.queued⟩] [⟨"a", DownloadStatus.preparing⟩] := by
    have h := QueueStep.start [⟨"a", DownloadStatus.queued⟩] ⟨"a", DownloadStatus.queued⟩
      (by decide) (by decide)
    simpa [setStatus] using h
  exact Relation.ReflTransGen.tail (Relation.ReflTransGen.single h1) h2

/-! ## Live channel manifest load with proxy fallback
(src/components/Player.tsx, attemptLoad lines 40-98) -/

/-- The URL handed to the hls loader: either the channel URL itself or the
channel URL routed through the allorigins fetch proxy. -/
inductive LoadUrl where
  | direct (url : String)
  | proxied (originalUrl : String)
deriving DecidableEq

/-- The outcome of loading one manifest URL: parsed, or a network error
with details MANIFEST_LOAD_ERROR. -/
inductive ManifestResult where
  | parsed
  | manifestLoadError
deriving DecidableEq

/-- The outcome of attemptLoad: playback starts, or a playback error is
reported (logged, with an in-place recovery attempt) while the session
stays alive; sessionTerminated exists in the vocabulary but no code path
produces it. -/
inductive LoadOutcome where
  | playing
  | playbackErrorReported
  | sessionTerminated
deriving DecidableEq

/-- The isProxyAttempt = true call of attemptLoad: a manifest-load error on
the proxied URL is not retried again, the error handler falls through to
the fatal-error recovery and reports a playback error. -/
def attemptLoadProxy (manifest : LoadUrl → ManifestResult) (originalUrl : String) :
    List LoadUrl × LoadOutcome :=
  match manifest (LoadUrl.proxied originalUrl) with
  | .parsed => ([LoadUrl.proxied originalUrl], .playing)
  | .manifestLoadError => ([LoadUrl.proxied originalUrl], .playbackErrorReported)

/-- The initial attemptLoad call (isProxyAttempt = false) on the channel
URL: a manifest-load error triggers exactly one retry through the proxy,
built from the original URL.  Returns the list of URLs attempted, in
order, with the final outcome. -/
def attemptLoad (manifest : LoadUrl → ManifestResult) (originalUrl : String) :
    List LoadUrl × LoadOutcome :=
  match manifest (LoadUrl.direct originalUrl) with
  | .parsed => ([LoadUrl.direct originalUrl], .playing)
  | .manifestLoadError =>
    let r := attemptLoadProxy manifest originalUrl
    (LoadUrl.direct originalUrl :: r.1, r.2)

/-- C8: a manifest-load failure on the direct channel URL is retried
exactly once, through the proxy applied to the original URL; if the
proxied attempt also fails there is no further attempt and the outcome is
a reported playback error; no outcome of attemptLoad ever terminates the
session. -/
theorem live_manifest_proxy_retry_once :
    (∀ (manifest : LoadUrl → ManifestResult) (u : String),
      manifest (LoadUrl.direct u) = .manifestLoadError →
      (attemptLoad manifest u).1 = [LoadUrl.direct u, LoadUrl.proxied u]
      ∧ (manifest (LoadUrl.proxied u) = .manifestLoadError →
        (attemptLoad manifest u).2 = .playbackErrorReported))
    ∧ (∀ (manifest : LoadUrl → ManifestResult) (u : String),
      (attemptLoad manifest u).2 ≠ .sessionTerminated) := by
  constructor
  · intro manifest u hdirect
    constructor
    · cases hp : manifest (LoadUrl.proxied u) <;>
        simp [attemptLoad, attemptLoadProxy, hdirect, hp]
    · intro hproxy
      simp [attemptLoad, attemptLoadProxy, hdirect, hproxy]
  · intro manifest u
    cases hd : manifest (LoadUrl.direct u) <;>
      cases hp : manifest (LoadUrl.proxied u) <;>
      simp [attemptLoad, attemptLoadProxy, hd, hp]

/-- Witness for live_manifest_proxy_retry_once with a manifest that fails
everywhere. -/
theorem live_manifest_proxy_retry_once_witness :
    ((attemptLoad (fun _ => .manifestLoadError) "http://ch.example/live.m3u8").1
      = [LoadUrl.direct "http://ch.example/live.m3u8",
         LoadUrl.proxied "http://ch.example/live.m3u8"]
    ∧ (attemptLoad (fun _ => .manifestLoadError) "http://ch.example/live.m3u8").2
      = LoadOutcome.playbackErrorReported)
    ∧ (attemptLoad (fun _ => .manifestLoadError) "http://ch.example/live.m3u8").2
      ≠ LoadOutcome.sessionTerminated :=
  ⟨⟨(live_manifest_proxy_retry_once.1 (fun _ => .manifestLoadError)
      "http://ch.example/live.m3u8" rfl).1,
    (live_manifest_proxy_retry_once.1 (fun _ => .manifestLoadError)
      "http://ch.example/live.m3u8" rfl).2 rfl⟩,
   live_manifest_proxy_retry_once.2 (fun _ => .manifestLoadError)
      "http://ch.example/live.m3u8"⟩
